import Mathlib

/-!
Shallow embedding of the concurrency core of the `multi-process-portfolio`
trading engine (Rust sources under `src/`): the shared position ledger
(`portfolio.rs`), the order-fill pipeline (`order_engine.rs`), the per-market
trader loop and engine lifecycle (`trader.rs`, `main.rs`).

Modelling conventions:
- `f32` prices are modelled as `Rat` (no claim does floating-point arithmetic;
  prices are only stored and compared for equality here).
- the `HashMap<MarketPair, Position>` of the ledger is modelled as an
  association list `List (MarketPair × Position)`; `Entry::Vacant` insertion,
  `get` and `remove` are modelled by the corresponding first-match list
  operations, and the HashMap key-uniqueness invariant is the explicit
  predicate `keysNodup`.
- flume channels are modelled as shared FIFO queues (`List`): `try_recv`
  takes the head; cloned receivers share one queue, so a message is consumed
  by exactly one receiver (flume is an MPMC queue, not a broadcast channel).
  A bounded `send` appends when there is room, blocks when the queue is full,
  and errors only when the channel is disconnected.
- the tokio fill tasks of the order engine are modelled as a `pending` list of
  `Fill`s: `tokio::spawn` appends a fill, and the later completion of the task
  (after its simulated 300ms sleep, at the externally drawn price) is the
  `fillStep` transition, which may interleave arbitrarily with other events.
-/

/-- `MarketPair` from `main.rs`: asset + base symbol, value-equality key. -/
structure MarketPair where
  asset : String
  base : String
deriving DecidableEq, Repr

/-- `Position` from `portfolio.rs`: signed size and entry price. -/
structure Position where
  size : Int
  price : Rat
deriving DecidableEq, Repr

/-- `Portfolio` from `portfolio.rs`: engine id (Uuid modelled as `Nat`),
configured markets, and the positions map modelled as an association list. -/
structure Portfolio where
  engine_id : Nat
  markets : List MarketPair
  positions : List (MarketPair × Position)
deriving DecidableEq, Repr

/-- `HashMap::get` on the positions map: first entry with the given key. -/
def lookupPosition : List (MarketPair × Position) → MarketPair → Option Position
  | [], _ => none
  | e :: rest, m => if e.1 = m then some e.2 else lookupPosition rest m

/-- `HashMap::remove` on the positions map: drop the (first) entry with the
given key. -/
def removeFirst : List (MarketPair × Position) → MarketPair → List (MarketPair × Position)
  | [], _ => []
  | e :: rest, m => if e.1 = m then rest else e :: removeFirst rest m

/-- Number of entries stored under a key. -/
def countKey : List (MarketPair × Position) → MarketPair → Nat
  | [], _ => 0
  | e :: rest, m => (if e.1 = m then 1 else 0) + countKey rest m

/-- The HashMap invariant: at most one entry per key. -/
def keysNodup (l : List (MarketPair × Position)) : Prop :=
  (l.map Prod.fst).Nodup

instance (l : List (MarketPair × Position)) : Decidable (keysNodup l) := by
  unfold keysNodup; infer_instance

/-- `Portfolio::close_position` (`portfolio.rs` lines 37-40):
`self.positions.remove(market_pair)`. -/
def Portfolio.close_position (ptf : Portfolio) (market_pair : MarketPair) : Portfolio :=
  { ptf with positions := removeFirst ptf.positions market_pair }

/-- `if let Entry::Vacant(e) = positions.entry(k) { e.insert(v) }`
(`order_engine.rs` lines 57 and 74): insert only when the key is absent. -/
def entryInsertIfVacant (l : List (MarketPair × Position)) (m : MarketPair)
    (pos : Position) : List (MarketPair × Position) :=
  match lookupPosition l m with
  | some _ => l
  | none => (m, pos) :: l

/-- A dispatched fill task of the order engine (`tokio::spawn` in
`order_engine.rs`): the market it is for and the signed size it will insert
(`+1` for Long, `-1` for Short). The fill price is drawn when it completes. -/
structure Fill where
  market_pair : MarketPair
  size : Int
deriving DecidableEq, Repr

/-- Completion of a dispatched fill task (`order_engine.rs` lines 48-62 and
67-79): after the simulated latency, at the drawn `price`, insert the position
only if the market has no entry; otherwise leave the ledger untouched. -/
def resolveFill (ptf : Portfolio) (f : Fill) (price : Rat) : Portfolio :=
  { ptf with positions :=
      entryInsertIfVacant ptf.positions f.market_pair { size := f.size, price := price } }

/-- `OrderEvent` from `order_engine.rs` (the `Arc<Mutex<Portfolio>>` payloads
all reference the single shared ledger, left implicit here). -/
inductive OrderEvent where
  | Reverse (pair : MarketPair)
  | Long (pair : MarketPair)
  | Short (pair : MarketPair)
  | Close (pair : MarketPair)
deriving DecidableEq, Repr

/-- State of the order engine: the shared ledger plus the fill tasks that have
been spawned but whose simulated latency has not yet elapsed. -/
structure EngineState where
  portfolio : Portfolio
  pending : List Fill
deriving DecidableEq, Repr

/-- One iteration of the order-engine consumption loop
(`order_engine.rs` lines 36-85): `Close` mutates the ledger inline;
`Long`/`Short` spawn a fill task (ledger untouched until the task completes);
`Reverse` only prints. -/
def handleEvent (s : EngineState) (e : OrderEvent) : EngineState :=
  match e with
  | .Close pair => { s with portfolio := s.portfolio.close_position pair }
  | .Long pair => { s with pending := s.pending ++ [{ market_pair := pair, size := 1 }] }
  | .Short pair => { s with pending := s.pending ++ [{ market_pair := pair, size := -1 }] }
  | .Reverse _ => s

/-- Completion of the `i`-th pending fill task at drawn price `price`. -/
def fillStep (s : EngineState) (i : Nat) (price : Rat) : EngineState :=
  match s.pending[i]? with
  | none => s
  | some f => { portfolio := resolveFill s.portfolio f price, pending := s.pending.eraseIdx i }

/-- An atomic ledger-affecting event: either the consumption loop handling one
submitted intent, or a spawned fill task completing. Any concurrent execution
is some interleaving, i.e. some list of these. -/
inductive LedgerOp where
  | submit (e : OrderEvent)
  | fill (i : Nat) (price : Rat)

/-- Apply one atomic engine event. -/
def engineStep (s : EngineState) (op : LedgerOp) : EngineState :=
  match op with
  | .submit e => handleEvent s e
  | .fill i price => fillStep s i price

/-- Run a sequence of atomic engine events. -/
def engineRun (s : EngineState) : List LedgerOp → EngineState
  | [] => s
  | op :: rest => engineRun (engineStep s op) rest

/-- `Candle` from `trader.rs` (OHLC prices as `Rat`, volume and timestamp as
`Int`). -/
structure Candle where
  open_ : Rat
  high : Rat
  low : Rat
  close : Rat
  volume : Int
  timestamp : Int
deriving DecidableEq, Repr

/-- `MarketData` from `trader.rs`: the `VecDeque<Candle>` with the most recent
candle at the front. -/
structure MarketData where
  candles : List Candle
deriving DecidableEq, Repr

/-- `TradeSignal` from `strategies.rs`. -/
inductive TradeSignal where
  | Long
  | Short
  | Close
deriving DecidableEq, Repr

/-- `SystemCtx` from `strategies.rs`: the snapshot handed to a strategy. -/
structure SystemCtx where
  position : Position
  market_pair : MarketPair
  market_data : MarketData

/-- The `SignalGenerator` trait from `strategies.rs`, modelled as a function
(the two strategies in the source carry no mutable state). -/
def SignalGenerator : Type :=
  SystemCtx → Option TradeSignal

/-- `Command` from `main.rs`. -/
inductive Command where
  | ForceExit
  | PortfolioStatus
  | CloseAllPositions
  | AddPortfolioPosition (pos : Position)
deriving DecidableEq, Repr

/-- Whether a trader loop keeps running or has broken out of
`'strategy_loop`. -/
inductive Control where
  | cont
  | stop
deriving DecidableEq, Repr

/-- Everything one iteration of the `'strategy_loop` body in `Trader::start`
(`trader.rs` lines 81-135) produces: the control flow, the trader's market
data afterwards, the order submitted to the order channel (if any), and what
is left of the three polled queues (stop, command, market-event) after the
iteration's `try_recv` calls. -/
structure TraderCycleResult where
  control : Control
  market_data : MarketData
  order : Option OrderEvent
  stop_rest : List Bool
  cmd_rest : List Command
  market_rest : List Candle
deriving Repr

/-- `if let Ok(MarketEvent::Ohlc(ohlc)) = market_event_recv.try_recv()
\x7b self.market_data.candles.push_front(ohlc) \x7d` (`trader.rs` lines 93-95). -/
def prependBar (msg : Option Candle) (md : MarketData) : MarketData :=
  match msg with
  | some c => { candles := c :: md.candles }
  | none => md

/-- One iteration of the `'strategy_loop` body of `Trader::start`
(`trader.rs` lines 81-135). The three flume receivers are modelled as FIFO
queues whose head is what `try_recv` would return; `tickFired` is whether
`ticker.try_recv()` yielded a tick; `positions` is the shared ledger's map as
read under the lock. In source order: poll the stop queue (break on `true`),
poll the command queue (break on `ForceExit`, discard any other command),
poll the market-event queue (prepend a received candle), then on a tick read
this market's position under the lock — `continue` if there is none —
release the lock and run the strategy, mapping its signal to an order. -/
def traderCycle (mp : MarketPair) (strategy : SignalGenerator) (md : MarketData)
    (positions : List (MarketPair × Position)) (stopQ : List Bool)
    (cmdQ : List Command) (mktQ : List Candle) (tickFired : Bool) :
    TraderCycleResult :=
  if stopQ.head? = some true then
    { control := .stop, market_data := md, order := none,
      stop_rest := stopQ.tail, cmd_rest := cmdQ, market_rest := mktQ }
  else if cmdQ.head? = some Command.ForceExit then
    { control := .stop, market_data := md, order := none,
      stop_rest := stopQ.tail, cmd_rest := cmdQ.tail, market_rest := mktQ }
  else
    let md1 := prependBar mktQ.head? md
    if tickFired then
      match lookupPosition positions mp with
      | none =>
        { control := .cont, market_data := md1, order := none,
          stop_rest := stopQ.tail, cmd_rest := cmdQ.tail, market_rest := mktQ.tail }
      | some position =>
        let ctx : SystemCtx :=
          { position := position, market_pair := mp, market_data := md1 }
        let order := (strategy ctx).map fun sig =>
          match sig with
          | TradeSignal.Close => OrderEvent.Close mp
          | TradeSignal.Long => OrderEvent.Long mp
          | TradeSignal.Short => OrderEvent.Short mp
        { control := .cont, market_data := md1, order := order,
          stop_rest := stopQ.tail, cmd_rest := cmdQ.tail, market_rest := mktQ.tail }
    else
      { control := .cont, market_data := md1, order := none,
        stop_rest := stopQ.tail, cmd_rest := cmdQ.tail, market_rest := mktQ.tail }

/-- A trader loop composed with the shared order engine: the trader's control
state plus the engine state (ledger + spawned fills). -/
structure SystemState where
  trader_control : Control
  engine : EngineState
deriving Repr

/-- One trader-loop iteration at the system level: the trader reads the shared
ledger, and any order it submits is handled by the order-engine consumption
loop. Returns the new system state together with the iteration's result. -/
def systemTraderStep (sys : SystemState) (mp : MarketPair) (strategy : SignalGenerator)
    (md : MarketData) (stopQ : List Bool) (cmdQ : List Command) (mktQ : List Candle)
    (tickFired : Bool) : SystemState × TraderCycleResult :=
  let r := traderCycle mp strategy md sys.engine.portfolio.positions stopQ cmdQ mktQ tickFired
  ({ trader_control := r.control,
     engine :=
       match r.order with
       | some e => handleEvent sys.engine e
       | none => sys.engine }, r)

/-- What a trader carries into `TradingEngine::start` that the lifecycle code
actually uses: its market pair (strategy and tick rate are irrelevant to the
wiring). The tick rate is kept (in seconds) for fidelity to `main.rs`. -/
structure TraderSpec where
  market_pair : MarketPair
  tick_rate : Nat
deriving DecidableEq, Repr

/-- `TradingEngine` from `trader.rs` (the variant `main.rs` compiles;
`trading_engine.rs` is not declared as a module). -/
structure TradingEngine where
  engine_id : Nat
  traders : List TraderSpec
deriving DecidableEq, Repr

/-- Result of `TradingEngine::start` (`trader.rs` lines 156-184): the rayon
pool size, the market loops spawned onto it, and the returned handle mapping
each trader's `asset` string to the sender half of its bounded price-bar
channel (modelled by the channel's capacity). -/
structure TradingEngineStart where
  num_threads : Nat
  spawned : List MarketPair
  traders_map : List (String × Nat)
deriving DecidableEq, Repr

/-- `TradingEngine::start` from `trader.rs` lines 156-184:
`rayon::ThreadPoolBuilder::new().num_threads(2)`, one `thread_pool.spawn` of
`Trader::start` per trader, and `traders_map.insert(asset, market_event_send)`
where the per-market channel is `flume::bounded::<MarketEvent>(512)`. -/
def TradingEngine.start (e : TradingEngine) : TradingEngineStart :=
  { num_threads := 2,
    spawned := e.traders.map (fun t => t.market_pair),
    traders_map := e.traders.map (fun t => (t.market_pair.asset, 512)) }

/-- Outcome of `flume::Sender::send` on the bounded order channel
(`trader.rs` lines 128-131, channel built by `flume::bounded(128)` in
`main.rs`): an error only when the channel is disconnected; when the bounded
queue is full the call blocks until space frees; otherwise the event is
enqueued. -/
inductive SendResult where
  | ok (q : List OrderEvent)
  | blocked
  | disconnected
deriving DecidableEq, Repr

/-- `flume::Sender::send` on a bounded channel of capacity `cap`. -/
def flumeSend (cap : Nat) (connected : Bool) (q : List OrderEvent)
    (e : OrderEvent) : SendResult :=
  if connected = false then .disconnected
  else if q.length < cap then .ok (q ++ [e]) else .blocked

/-- What the trader loop does around the send
(`let _ = self.order_sender.send(event).inspect_err(...)`): on a disconnect
error the error is logged, the intent dropped and the loop proceeds
(`dropped := true`); on success the loop proceeds with the event enqueued; on
a full queue the blocking `send` keeps the loop waiting. -/
inductive SubmitOutcome where
  | proceeded (q : List OrderEvent) (dropped : Bool)
  | blockedWaiting
deriving DecidableEq, Repr

/-- The trader's order-submission step (`trader.rs` lines 128-131). -/
def submitOrder (cap : Nat) (connected : Bool) (q : List OrderEvent)
    (e : OrderEvent) : SubmitOutcome :=
  match flumeSend cap connected q e with
  | .ok q1 => .proceeded q1 false
  | .disconnected => .proceeded q true
  | .blocked => .blockedWaiting

/-- Atomic events for the lock-discipline traces: lock acquisition/release on
the shared ledger mutex, a `generate_signal` call, a suspension
(`sleep`/`tokio::time::sleep`), and a potentially blocking channel `send`. -/
inductive Ev where
  | lock
  | unlock
  | policy
  | sleepEv
  | sendEv
deriving DecidableEq, Repr

/-- The sequence of lock/suspension events one `'strategy_loop` iteration
emits, in the statement order of `trader.rs` lines 81-135: nothing when the
loop breaks; on a tick, `portfolio.lock()` then — position absent — the guard
drop at `continue` (the `continue` also skips the 10ms sleep), or — position
present — `drop(ptf)`, the policy call, the order `send` when a signal was
produced, and the end-of-iteration sleep; without a tick just the sleep. -/
def traderCycleTrace (mp : MarketPair) (strategy : SignalGenerator) (md : MarketData)
    (positions : List (MarketPair × Position)) (stopQ : List Bool)
    (cmdQ : List Command) (mktQ : List Candle) (tickFired : Bool) : List Ev :=
  if stopQ.head? = some true then []
  else if cmdQ.head? = some Command.ForceExit then []
  else
    let md1 := prependBar mktQ.head? md
    if tickFired then
      match lookupPosition positions mp with
      | none => [Ev.lock, Ev.unlock]
      | some position =>
        match strategy { position := position, market_pair := mp, market_data := md1 } with
        | some _ => [Ev.lock, Ev.unlock, Ev.policy, Ev.sendEv, Ev.sleepEv]
        | none => [Ev.lock, Ev.unlock, Ev.policy, Ev.sleepEv]
    else [Ev.sleepEv]

/-- Events of one spawned fill task (`order_engine.rs` lines 48-62 / 67-79):
the simulated 300ms `tokio::time::sleep`, then — "LOCK AFTER" — the ledger
lock, the insert-if-vacant, and the `drop(ptf)`. -/
def fillTaskTrace : List Ev :=
  [Ev.sleepEv, Ev.lock, Ev.unlock]

/-- Events of the inline `Close` arm of the order-engine consumption loop
(`order_engine.rs` lines 38-43): lock, remove, drop. No sleep, no spawn. -/
def closeTrace : List Ev :=
  [Ev.lock, Ev.unlock]

/-- Lock-discipline check over an event trace, tracking the mutex depth:
`policy`, `sleepEv` and `sendEv` are legal only while the lock is free,
`unlock` must match a `lock`, and the trace must end with the lock free. -/
def depthOk : List Ev → Nat → Bool
  | [], d => d == 0
  | Ev.lock :: r, d => depthOk r (d + 1)
  | Ev.unlock :: r, d =>
    match d with
    | 0 => false
    | d1 + 1 => depthOk r d1
  | Ev.policy :: r, d => d == 0 && depthOk r d
  | Ev.sleepEv :: r, d => d == 0 && depthOk r d
  | Ev.sendEv :: r, d => d == 0 && depthOk r d

/-- A trace respects the lock discipline when it passes `depthOk` from an
unlocked start. -/
def lockDiscipline (t : List Ev) : Bool :=
  depthOk t 0

/-- The `SUI/USD` market from `main.rs`. -/
def sui_usd : MarketPair :=
  { asset := "SUI", base := "USD" }

/-- A strategy producing no signal (concrete instantiation fixture). -/
def noStrategy : SignalGenerator :=
  fun _ => none

/-- The four traders `main.rs` configures (tick rates in seconds), in the
order they are pushed into the `traders` vec. -/
def mainEngine : TradingEngine :=
  { engine_id := 0,
    traders :=
      [ { market_pair := { asset := "SUI", base := "USD" }, tick_rate := 5 },
        { market_pair := { asset := "SOL", base := "USD" }, tick_rate := 2 },
        { market_pair := { asset := "BTC", base := "USD" }, tick_rate := 15 },
        { market_pair := { asset := "NQ", base := "" }, tick_rate := 30 } ] }

theorem lookupPosition_eq_none_iff (l : List (MarketPair × Position)) (m : MarketPair) :
    lookupPosition l m = none ↔ ∀ e ∈ l, e.1 ≠ m := by
  induction l with
  | nil => simp [lookupPosition]
  | cons e rest ih =>
    by_cases h : e.1 = m
    · simp [lookupPosition, h]
    · simp [lookupPosition, h, ih]

theorem countKey_eq_zero_of_forall (l : List (MarketPair × Position)) (m : MarketPair)
    (h : ∀ e ∈ l, e.1 ≠ m) : countKey l m = 0 := by
  induction l with
  | nil => rfl
  | cons e rest ih =>
    have he : e.1 ≠ m := h e (by simp)
    simp only [countKey, if_neg he, Nat.zero_add]
    exact ih fun e1 he1 => h e1 (by simp [he1])

theorem lookupPosition_cons_self (l : List (MarketPair × Position)) (m : MarketPair)
    (p : Position) : lookupPosition ((m, p) :: l) m = some p := by
  simp [lookupPosition]

theorem lookupPosition_cons_ne (l : List (MarketPair × Position)) (m m2 : MarketPair)
    (p : Position) (h : m2 ≠ m) :
    lookupPosition ((m, p) :: l) m2 = lookupPosition l m2 := by
  have hm2 : ¬(m = m2) := fun hc => h hc.symm
  simp [lookupPosition, hm2]

theorem removeFirst_sublist (l : List (MarketPair × Position)) (m : MarketPair) :
    (removeFirst l m).Sublist l := by
  induction l with
  | nil => simp [removeFirst]
  | cons e rest ih =>
    by_cases h : e.1 = m
    · simp [removeFirst, h]
    · simpa [removeFirst, h] using ih.cons₂ e

theorem keysNodup_removeFirst (l : List (MarketPair × Position)) (m : MarketPair)
    (h : keysNodup l) : keysNodup (removeFirst l m) :=
  h.sublist ((removeFirst_sublist l m).map Prod.fst)

theorem lookupPosition_removeFirst_self (l : List (MarketPair × Position))
    (m : MarketPair) (h : keysNodup l) :
    lookupPosition (removeFirst l m) m = none := by
  induction l with
  | nil => rfl
  | cons e rest ih =>
    have h1 : e.1 ∉ rest.map Prod.fst ∧ keysNodup rest := by
      simpa [keysNodup, List.nodup_cons] using h
    by_cases hm : e.1 = m
    · simp only [removeFirst, if_pos hm]
      rw [lookupPosition_eq_none_iff]
      intro e1 he1 hc
      exact h1.1 (List.mem_map.mpr ⟨e1, he1, by rw [hc, hm]⟩)
    · simp only [removeFirst, if_neg hm, lookupPosition, ih h1.2]

theorem lookupPosition_removeFirst_ne (l : List (MarketPair × Position))
    (m m2 : MarketPair) (h : m2 ≠ m) :
    lookupPosition (removeFirst l m) m2 = lookupPosition l m2 := by
  induction l with
  | nil => rfl
  | cons e rest ih =>
    by_cases hm : e.1 = m
    · have hm2 : ¬(m = m2) := fun hc => h hc.symm
      have he2 : ¬(e.1 = m2) := by rw [hm]; exact hm2
      simp [removeFirst, hm, lookupPosition, he2, hm2]
    · simp only [removeFirst, if_neg hm, lookupPosition, ih]

theorem removeFirst_eq_of_lookup_none (l : List (MarketPair × Position))
    (m : MarketPair) (h : lookupPosition l m = none) : removeFirst l m = l := by
  induction l with
  | nil => rfl
  | cons e rest ih =>
    have h1 := (lookupPosition_eq_none_iff _ _).mp h
    have he : e.1 ≠ m := h1 e (by simp)
    have hrest : lookupPosition rest m = none :=
      (lookupPosition_eq_none_iff _ _).mpr fun e1 he1 => h1 e1 (by simp [he1])
    simp [removeFirst, he, ih hrest]

theorem keysNodup_entryInsertIfVacant (l : List (MarketPair × Position))
    (m : MarketPair) (p : Position) (h : keysNodup l) :
    keysNodup (entryInsertIfVacant l m p) := by
  unfold entryInsertIfVacant
  cases hl : lookupPosition l m with
  | some q => exact h
  | none =>
    have h1 := (lookupPosition_eq_none_iff _ _).mp hl
    refine List.Nodup.cons ?_ h
    intro hmem
    rcases List.mem_map.mp hmem with ⟨e1, he1, he2⟩
    exact h1 e1 he1 he2

theorem countKey_le_one_of_keysNodup (l : List (MarketPair × Position))
    (m : MarketPair) (h : keysNodup l) : countKey l m ≤ 1 := by
  induction l with
  | nil => exact Nat.zero_le 1
  | cons e rest ih =>
    have h1 : e.1 ∉ rest.map Prod.fst ∧ keysNodup rest := by
      simpa [keysNodup, List.nodup_cons] using h
    by_cases hm : e.1 = m
    · have hz : countKey rest m = 0 := by
        refine countKey_eq_zero_of_forall rest m fun e1 he1 hc => ?_
        exact h1.1 (List.mem_map.mpr ⟨e1, he1, by rw [hc, hm]⟩)
      simp [countKey, hm, hz]
    · simpa [countKey, hm] using ih h1.2

theorem keysNodup_fillStep (s : EngineState) (i : Nat) (price : Rat)
    (h : keysNodup s.portfolio.positions) :
    keysNodup (fillStep s i price).portfolio.positions := by
  unfold fillStep
  split
  · exact h
  · next f hf =>
      simpa [resolveFill] using
        keysNodup_entryInsertIfVacant s.portfolio.positions f.market_pair _ h

theorem keysNodup_engineStep (s : EngineState) (op : LedgerOp)
    (h : keysNodup s.portfolio.positions) :
    keysNodup (engineStep s op).portfolio.positions := by
  cases op with
  | submit e =>
    cases e with
    | Close pair =>
      simpa [engineStep, handleEvent, Portfolio.close_position] using
        keysNodup_removeFirst s.portfolio.positions pair h
    | Long pair => simpa [engineStep, handleEvent] using h
    | Short pair => simpa [engineStep, handleEvent] using h
    | Reverse pair => simpa [engineStep, handleEvent] using h
  | fill i price => exact keysNodup_fillStep s i price h

theorem keysNodup_engineRun (s : EngineState) (ops : List LedgerOp)
    (h : keysNodup s.portfolio.positions) :
    keysNodup (engineRun s ops).portfolio.positions := by
  induction ops generalizing s with
  | nil => exact h
  | cons op rest ih => exact ih (engineStep s op) (keysNodup_engineStep s op h)

/-- C1: for a market with no open position in the ledger, a Long (resp. Short)
intent handled by the order engine spawns a fill task without touching the
ledger; when that task resolves after the simulated latency it inserts exactly
one Position with size `+1` (resp. `-1`) at the drawn fill price, leaving
every other market's entry unchanged; a fill that finds the market already
positioned when the lock is taken is silently ignored (ledger unchanged), so
two intents for the same market never produce two positions or overwrite one
another. -/
theorem long_short_insert_if_absent (s : EngineState) (m : MarketPair) (p1 p2 : Rat)
    (hpos : lookupPosition s.portfolio.positions m = none) :
    ((handleEvent s (OrderEvent.Long m)).portfolio = s.portfolio ∧
      (handleEvent s (OrderEvent.Long m)).pending =
        s.pending ++ [{ market_pair := m, size := 1 }] ∧
      (handleEvent s (OrderEvent.Short m)).portfolio = s.portfolio ∧
      (handleEvent s (OrderEvent.Short m)).pending =
        s.pending ++ [{ market_pair := m, size := -1 }]) ∧
    (lookupPosition (resolveFill s.portfolio { market_pair := m, size := 1 } p1).positions m =
        some { size := 1, price := p1 } ∧
      countKey (resolveFill s.portfolio { market_pair := m, size := 1 } p1).positions m = 1) ∧
    (lookupPosition (resolveFill s.portfolio { market_pair := m, size := -1 } p1).positions m =
        some { size := -1, price := p1 } ∧
      countKey (resolveFill s.portfolio { market_pair := m, size := -1 } p1).positions m = 1) ∧
    (∀ m2, m2 ≠ m → ∀ sz : Int,
      lookupPosition (resolveFill s.portfolio { market_pair := m, size := sz } p1).positions m2 =
        lookupPosition s.portfolio.positions m2) ∧
    (∀ sz1 sz2 : Int,
      lookupPosition (resolveFill (resolveFill s.portfolio { market_pair := m, size := sz1 } p1)
          { market_pair := m, size := sz2 } p2).positions m =
        some { size := sz1, price := p1 } ∧
      countKey (resolveFill (resolveFill s.portfolio { market_pair := m, size := sz1 } p1)
          { market_pair := m, size := sz2 } p2).positions m = 1) ∧
    (∀ (q : Portfolio) (f : Fill) (pr : Rat),
      (lookupPosition q.positions f.market_pair).isSome = true → resolveFill q f pr = q) := by
  have hforall := (lookupPosition_eq_none_iff s.portfolio.positions m).mp hpos
  have hz : countKey s.portfolio.positions m = 0 :=
    countKey_eq_zero_of_forall s.portfolio.positions m hforall
  have hins : ∀ sz : Int,
      (resolveFill s.portfolio { market_pair := m, size := sz } p1).positions =
        (m, { size := sz, price := p1 }) :: s.portfolio.positions := by
    intro sz
    simp [resolveFill, entryInsertIfVacant, hpos]
  have hignore : ∀ (q : Portfolio) (f : Fill) (pr : Rat),
      (lookupPosition q.positions f.market_pair).isSome = true → resolveFill q f pr = q := by
    intro q f pr hq
    cases hl : lookupPosition q.positions f.market_pair with
    | none => rw [hl] at hq; simp at hq
    | some p0 => simp [resolveFill, entryInsertIfVacant, hl]
  refine ⟨⟨rfl, rfl, rfl, rfl⟩, ?_, ?_, ?_, ?_, hignore⟩
  · rw [hins 1]
    exact ⟨lookupPosition_cons_self _ _ _, by simp [countKey, hz]⟩
  · rw [hins (-1)]
    exact ⟨lookupPosition_cons_self _ _ _, by simp [countKey, hz]⟩
  · intro m2 hm2 sz
    rw [hins sz]
    exact lookupPosition_cons_ne _ _ _ _ hm2
  · intro sz1 sz2
    have hsnd : resolveFill (resolveFill s.portfolio { market_pair := m, size := sz1 } p1)
        { market_pair := m, size := sz2 } p2 =
        resolveFill s.portfolio { market_pair := m, size := sz1 } p1 := by
      apply hignore
      rw [hins sz1]
      simp [lookupPosition_cons_self]
    rw [hsnd, hins sz1]
    exact ⟨lookupPosition_cons_self _ _ _, by simp [countKey, hz]⟩

theorem long_short_insert_if_absent_witness :
    lookupPosition (EngineState.mk (Portfolio.mk 0 [sui_usd] []) []).portfolio.positions
        sui_usd = none ∧
    lookupPosition (resolveFill (Portfolio.mk 0 [sui_usd] [])
        { market_pair := sui_usd, size := 1 } 12).positions sui_usd =
      some { size := 1, price := 12 } :=
  ⟨by decide,
    (long_short_insert_if_absent (EngineState.mk (Portfolio.mk 0 [sui_usd] []) [])
      sui_usd 12 13 (by decide)).2.1.1⟩

/-- C2: under any interleaving of submitted Long/Short/Close/Reverse intents
and fill-task completions, the ledger keeps at most one Position per market:
the one-entry-per-key invariant of the positions map is preserved by every
atomic engine event. -/
theorem ledger_at_most_one_position (s : EngineState) (ops : List LedgerOp)
    (h : keysNodup s.portfolio.positions) :
    keysNodup (engineRun s ops).portfolio.positions ∧
    ∀ m, countKey (engineRun s ops).portfolio.positions m ≤ 1 := by
  have hn := keysNodup_engineRun s ops h
  exact ⟨hn, fun m => countKey_le_one_of_keysNodup _ m hn⟩

theorem ledger_at_most_one_position_witness :
    keysNodup (EngineState.mk (Portfolio.mk 0 [sui_usd] []) []).portfolio.positions ∧
    countKey (engineRun (EngineState.mk (Portfolio.mk 0 [sui_usd] []) [])
        [LedgerOp.submit (OrderEvent.Long sui_usd), LedgerOp.fill 0 12,
          LedgerOp.submit (OrderEvent.Short sui_usd), LedgerOp.fill 0 13,
          LedgerOp.submit (OrderEvent.Close sui_usd)]).portfolio.positions sui_usd ≤ 1 :=
  ⟨by decide,
    (ledger_at_most_one_position (EngineState.mk (Portfolio.mk 0 [sui_usd] []) [])
      [LedgerOp.submit (OrderEvent.Long sui_usd), LedgerOp.fill 0 12,
        LedgerOp.submit (OrderEvent.Short sui_usd), LedgerOp.fill 0 13,
        LedgerOp.submit (OrderEvent.Close sui_usd)] (by decide)).2 sui_usd⟩

/-- C3: a Close intent is handled inline by the consumption loop (no fill task
is spawned, so no simulated latency): it removes the market's ledger entry if
present, leaves every other market's entry unchanged, and is a no-op — never
an error — when the market has no open position. -/
theorem close_intent_removes_entry (s : EngineState) (m : MarketPair)
    (h : keysNodup s.portfolio.positions) :
    (handleEvent s (OrderEvent.Close m)).pending = s.pending ∧
    lookupPosition (handleEvent s (OrderEvent.Close m)).portfolio.positions m = none ∧
    (∀ m2, m2 ≠ m →
      lookupPosition (handleEvent s (OrderEvent.Close m)).portfolio.positions m2 =
        lookupPosition s.portfolio.positions m2) ∧
    (lookupPosition s.portfolio.positions m = none →
      handleEvent s (OrderEvent.Close m) = s) := by
  refine ⟨rfl, ?_, ?_, ?_⟩
  · simpa [handleEvent, Portfolio.close_position] using
      lookupPosition_removeFirst_self s.portfolio.positions m h
  · intro m2 hm2
    simpa [handleEvent, Portfolio.close_position] using
      lookupPosition_removeFirst_ne s.portfolio.positions m m2 hm2
  · intro habs
    have hre : removeFirst s.portfolio.positions m = s.portfolio.positions :=
      removeFirst_eq_of_lookup_none s.portfolio.positions m habs
    simp only [handleEvent, Portfolio.close_position, hre]

theorem close_intent_removes_entry_witness :
    keysNodup (EngineState.mk (Portfolio.mk 0 [sui_usd]
        [(sui_usd, Position.mk 1 12)]) []).portfolio.positions ∧
    lookupPosition (handleEvent (EngineState.mk (Portfolio.mk 0 [sui_usd]
        [(sui_usd, Position.mk 1 12)]) [])
        (OrderEvent.Close sui_usd)).portfolio.positions sui_usd = none :=
  ⟨by decide,
    (close_intent_removes_entry (EngineState.mk (Portfolio.mk 0 [sui_usd]
      [(sui_usd, Position.mk 1 12)]) []) sui_usd (by decide)).2.1⟩

/-- C4: on a tick-driven evaluation, when the ledger has no entry for the
loop's market, the cycle is skipped: the loop keeps running, the Signal
Policy is not invoked (the cycle's outcome is independent of the strategy),
no trade intent is submitted, and the loop's market data changes only by the
bar possibly consumed earlier in the cycle. -/
theorem trader_skips_cycle_when_no_position (mp : MarketPair)
    (strategy : SignalGenerator) (md : MarketData)
    (positions : List (MarketPair × Position)) (stopQ : List Bool)
    (cmdQ : List Command) (mktQ : List Candle)
    (hstop : stopQ.head? ≠ some true)
    (hcmd : cmdQ.head? ≠ some Command.ForceExit)
    (hpos : lookupPosition positions mp = none) :
    (traderCycle mp strategy md positions stopQ cmdQ mktQ true).control = Control.cont ∧
    (traderCycle mp strategy md positions stopQ cmdQ mktQ true).order = none ∧
    (traderCycle mp strategy md positions stopQ cmdQ mktQ true).market_data =
      prependBar mktQ.head? md ∧
    ∀ strategy2 : SignalGenerator,
      traderCycle mp strategy2 md positions stopQ cmdQ mktQ true =
        traderCycle mp strategy md positions stopQ cmdQ mktQ true := by
  have key : ∀ st : SignalGenerator,
      traderCycle mp st md positions stopQ cmdQ mktQ true =
        { control := .cont, market_data := prependBar mktQ.head? md, order := none,
          stop_rest := stopQ.tail, cmd_rest := cmdQ.tail, market_rest := mktQ.tail } := by
    intro st
    simp [traderCycle, hstop, hcmd, hpos]
  refine ⟨?_, ?_, ?_, fun strategy2 => (key strategy2).trans (key strategy).symm⟩ <;>
    rw [key strategy]

theorem trader_skips_cycle_when_no_position_witness :
    (([] : List Bool).head? ≠ some true) ∧
    (([] : List Command).head? ≠ some Command.ForceExit) ∧
    lookupPosition [] sui_usd = none ∧
    (traderCycle sui_usd noStrategy (MarketData.mk []) [] [] [] [] true).control =
      Control.cont ∧
    (traderCycle sui_usd noStrategy (MarketData.mk []) [] [] [] [] true).order = none :=
  ⟨by decide, by decide, by decide,
    (trader_skips_cycle_when_no_position sui_usd noStrategy (MarketData.mk []) [] [] [] []
      (by decide) (by decide) (by decide)).1,
    (trader_skips_cycle_when_no_position sui_usd noStrategy (MarketData.mk []) [] [] [] []
      (by decide) (by decide) (by decide)).2.1⟩

/-- C5 (code_bug evidence): the stop and command channels are shared flume
MPMC queues, so a single message is consumed by exactly one loop, not
broadcast. With one `true` on the stop queue, the first loop to poll breaks
and drains the queue; a second loop polling the now-shared-empty queue keeps
running. Likewise for a single `ForceExit` on the command queue. One send
does not stop all loops. -/
theorem one_send_stops_only_one_loop :
    ((traderCycle sui_usd noStrategy (MarketData.mk []) [] [true] [] [] false).control =
        Control.stop ∧
      (traderCycle sui_usd noStrategy (MarketData.mk []) [] [true] [] [] false).stop_rest =
        []) ∧
    (traderCycle sui_usd noStrategy (MarketData.mk []) [] [] [] [] false).control =
      Control.cont ∧
    ((traderCycle sui_usd noStrategy (MarketData.mk []) [] [] [Command.ForceExit] []
          false).control = Control.stop ∧
      (traderCycle sui_usd noStrategy (MarketData.mk []) [] [] [Command.ForceExit] []
          false).cmd_rest = []) := by
  decide

/-- C6 (code_bug evidence): for the four markets `main.rs` configures, the
compiled `TradingEngine::start` (the one in `trader.rs`; `trading_engine.rs`
is never declared as a module) builds a rayon pool of fixed size 2 — smaller
than N = 4 — while it does spawn exactly one market loop per trader and
returns the handle keyed by each trader's asset string. -/
theorem trading_engine_pool_undersized :
    (TradingEngine.start mainEngine).num_threads = 2 ∧
    mainEngine.traders.length = 4 ∧
    ¬(mainEngine.traders.length ≤ (TradingEngine.start mainEngine).num_threads) ∧
    (TradingEngine.start mainEngine).spawned =
      mainEngine.traders.map (fun t => t.market_pair) ∧
    (TradingEngine.start mainEngine).traders_map.map Prod.fst =
      ["SUI", "SOL", "BTC", "NQ"] := by
  decide

/-- C7: a loop that polls a ForceExit command breaks out within that very
cycle — before the market-event drain and the evaluation, so no bar is
consumed and no order is emitted — and its termination leaves the order
engine's state, in particular every already-dispatched pending fill and the
effect of its later completion, untouched. -/
theorem force_exit_stops_loop_preserves_fills (sys : SystemState) (mp : MarketPair)
    (strategy : SignalGenerator) (md : MarketData) (stopQ : List Bool)
    (cmdQ : List Command) (mktQ : List Candle) (tickFired : Bool)
    (hstop : stopQ.head? ≠ some true)
    (hcmd : cmdQ.head? = some Command.ForceExit) :
    (systemTraderStep sys mp strategy md stopQ cmdQ mktQ tickFired).1.trader_control =
      Control.stop ∧
    (systemTraderStep sys mp strategy md stopQ cmdQ mktQ tickFired).2.order = none ∧
    (systemTraderStep sys mp strategy md stopQ cmdQ mktQ tickFired).2.market_data = md ∧
    (systemTraderStep sys mp strategy md stopQ cmdQ mktQ tickFired).2.market_rest = mktQ ∧
    (systemTraderStep sys mp strategy md stopQ cmdQ mktQ tickFired).1.engine = sys.engine ∧
    ∀ (i : Nat) (price : Rat),
      fillStep (systemTraderStep sys mp strategy md stopQ cmdQ mktQ tickFired).1.engine
          i price =
        fillStep sys.engine i price := by
  have key : traderCycle mp strategy md sys.engine.portfolio.positions stopQ cmdQ mktQ
      tickFired =
      { control := .stop, market_data := md, order := none,
        stop_rest := stopQ.tail, cmd_rest := cmdQ.tail, market_rest := mktQ } := by
    simp [traderCycle, hstop, hcmd]
  refine ⟨?_, ?_, ?_, ?_, ?_, ?_⟩ <;> simp [systemTraderStep, key]

theorem force_exit_stops_loop_preserves_fills_witness :
    (([] : List Bool).head? ≠ some true) ∧
    ([Command.ForceExit].head? = some Command.ForceExit) ∧
    (systemTraderStep
        (SystemState.mk Control.cont
          (EngineState.mk (Portfolio.mk 0 [sui_usd] []) [Fill.mk sui_usd 1]))
        sui_usd noStrategy (MarketData.mk []) [] [Command.ForceExit] [] true).1.trader_control =
      Control.stop ∧
    (systemTraderStep
        (SystemState.mk Control.cont
          (EngineState.mk (Portfolio.mk 0 [sui_usd] []) [Fill.mk sui_usd 1]))
        sui_usd noStrategy (MarketData.mk []) [] [Command.ForceExit] [] true).1.engine =
      EngineState.mk (Portfolio.mk 0 [sui_usd] []) [Fill.mk sui_usd 1] :=
  ⟨by decide, by decide,
    (force_exit_stops_loop_preserves_fills
      (SystemState.mk Control.cont
        (EngineState.mk (Portfolio.mk 0 [sui_usd] []) [Fill.mk sui_usd 1]))
      sui_usd noStrategy (MarketData.mk []) [] [Command.ForceExit] [] true
      (by decide) (by decide)).1,
    (force_exit_stops_loop_preserves_fills
      (SystemState.mk Control.cont
        (EngineState.mk (Portfolio.mk 0 [sui_usd] []) [Fill.mk sui_usd 1]))
      sui_usd noStrategy (MarketData.mk []) [] [Command.ForceExit] [] true
      (by decide) (by decide)).2.2.2.2.1⟩

/-- C8: in every trader-loop cycle the ledger lock is released before
`generate_signal` is called, and no event trace of the core — trader cycle,
spawned fill task (which sleeps its simulated latency before locking), or the
inline Close arm — suspends, sleeps, or performs a potentially blocking send
while the lock is held; every lock is matched by an unlock. -/
theorem policy_outside_lock_no_suspend_while_locked (mp : MarketPair)
    (strategy : SignalGenerator) (md : MarketData)
    (positions : List (MarketPair × Position)) (stopQ : List Bool)
    (cmdQ : List Command) (mktQ : List Candle) (tickFired : Bool) :
    lockDiscipline (traderCycleTrace mp strategy md positions stopQ cmdQ mktQ tickFired) =
      true ∧
    lockDiscipline fillTaskTrace = true ∧
    lockDiscipline closeTrace = true := by
  refine ⟨?_, by decide, by decide⟩
  unfold traderCycleTrace
  by_cases h1 : stopQ.head? = some true
  · simp [h1, lockDiscipline, depthOk]
  · by_cases h2 : cmdQ.head? = some Command.ForceExit
    · simp [h1, h2, lockDiscipline, depthOk]
    · cases htick : tickFired
      · simp [h1, h2, lockDiscipline, depthOk]
      · cases hlook : lookupPosition positions mp
        · simp [h1, h2, hlook, lockDiscipline, depthOk]
        · next p =>
            cases hsig : strategy
                { position := p, market_pair := mp, market_data := prependBar mktQ.head? md }
            · simp [h1, h2, hlook, hsig, lockDiscipline, depthOk]
            · simp [h1, h2, hlook, hsig, lockDiscipline, depthOk]

/-- C9 counterexample: with the bounded order channel full but still
connected (capacity 1, one queued event), the trader's `send` blocks; the
intent is not dropped and the loop does not proceed, contradicting the claim
that a full channel produces a logged-and-dropped failure without blocking. -/
theorem full_channel_blocks_counterexample :
    submitOrder 1 true [OrderEvent.Close sui_usd] (OrderEvent.Long sui_usd) =
      SubmitOutcome.blockedWaiting ∧
    submitOrder 1 true [OrderEvent.Close sui_usd] (OrderEvent.Long sui_usd) ≠
      SubmitOutcome.proceeded [OrderEvent.Close sui_usd] true ∧
    ([OrderEvent.Close sui_usd] : List OrderEvent).length = 1 := by
  decide

/-- C9 amended: when the order channel is disconnected, the send error is
logged, the intent dropped without retry, and the loop proceeds to its next
cycle; when the channel is full but connected, the blocking `send` makes the
loop wait for space (no drop, no immediate next cycle); with room available
the intent is enqueued and the loop proceeds. -/
theorem order_submission_failure_semantics (cap : Nat) (q : List OrderEvent)
    (e : OrderEvent) :
    submitOrder cap false q e = SubmitOutcome.proceeded q true ∧
    (cap ≤ q.length → submitOrder cap true q e = SubmitOutcome.blockedWaiting) ∧
    (q.length < cap → submitOrder cap true q e = SubmitOutcome.proceeded (q ++ [e]) false) := by
  refine ⟨by simp [submitOrder, flumeSend], ?_, ?_⟩
  · intro hle
    have hnl : ¬(q.length < cap) := Nat.not_lt.mpr hle
    simp [submitOrder, flumeSend, hnl]
  · intro hlt
    simp [submitOrder, flumeSend, hlt]

theorem order_submission_failure_semantics_witness :
    1 ≤ ([OrderEvent.Close sui_usd] : List OrderEvent).length ∧
    submitOrder 1 false [OrderEvent.Close sui_usd] (OrderEvent.Long sui_usd) =
      SubmitOutcome.proceeded [OrderEvent.Close sui_usd] true ∧
    submitOrder 1 true [OrderEvent.Close sui_usd] (OrderEvent.Long sui_usd) =
      SubmitOutcome.blockedWaiting :=
  ⟨by decide,
    (order_submission_failure_semantics 1 [OrderEvent.Close sui_usd]
      (OrderEvent.Long sui_usd)).1,
    (order_submission_failure_semantics 1 [OrderEvent.Close sui_usd]
      (OrderEvent.Long sui_usd)).2.1 (by decide)⟩

/-- C10: a polled command other than ForceExit is consumed from the command
queue and discarded: the cycle's control flow, market data, emitted order and
the resulting engine state (ledger included) are exactly those of a cycle
that received no command at all — CloseAllPositions closes nothing and
AddPortfolioPosition adds nothing. -/
theorem non_forceexit_commands_no_effect (sys : SystemState) (mp : MarketPair)
    (strategy : SignalGenerator) (md : MarketData) (stopQ : List Bool)
    (mktQ : List Candle) (tickFired : Bool) (c : Command) (rest : List Command)
    (hstop : stopQ.head? ≠ some true)
    (hc : c ≠ Command.ForceExit) :
    (systemTraderStep sys mp strategy md stopQ (c :: rest) mktQ tickFired).1 =
      (systemTraderStep sys mp strategy md stopQ [] mktQ tickFired).1 ∧
    (systemTraderStep sys mp strategy md stopQ (c :: rest) mktQ tickFired).2.market_data =
      (systemTraderStep sys mp strategy md stopQ [] mktQ tickFired).2.market_data ∧
    (systemTraderStep sys mp strategy md stopQ (c :: rest) mktQ tickFired).2.order =
      (systemTraderStep sys mp strategy md stopQ [] mktQ tickFired).2.order ∧
    (systemTraderStep sys mp strategy md stopQ (c :: rest) mktQ tickFired).2.stop_rest =
      (systemTraderStep sys mp strategy md stopQ [] mktQ tickFired).2.stop_rest ∧
    (systemTraderStep sys mp strategy md stopQ (c :: rest) mktQ tickFired).2.market_rest =
      (systemTraderStep sys mp strategy md stopQ [] mktQ tickFired).2.market_rest ∧
    (systemTraderStep sys mp strategy md stopQ (c :: rest) mktQ tickFired).2.cmd_rest =
      rest := by
  have hch : ¬((c :: rest).head? = some Command.ForceExit) := by simpa using hc
  cases htick : tickFired
  · simp [systemTraderStep, traderCycle, hstop, hch, hc]
  · cases hlook : lookupPosition sys.engine.portfolio.positions mp
    · simp [systemTraderStep, traderCycle, hstop, hch, hc, hlook]
    · simp [systemTraderStep, traderCycle, hstop, hch, hc, hlook]

theorem non_forceexit_commands_no_effect_witness :
    (([] : List Bool).head? ≠ some true) ∧
    Command.CloseAllPositions ≠ Command.ForceExit ∧
    (systemTraderStep
        (SystemState.mk Control.cont
          (EngineState.mk (Portfolio.mk 0 [sui_usd] [(sui_usd, Position.mk 1 12)]) []))
        sui_usd noStrategy (MarketData.mk []) [] [Command.CloseAllPositions] []
        false).1 =
      (systemTraderStep
        (SystemState.mk Control.cont
          (EngineState.mk (Portfolio.mk 0 [sui_usd] [(sui_usd, Position.mk 1 12)]) []))
        sui_usd noStrategy (MarketData.mk []) [] [] [] false).1 :=
  ⟨by decide, by decide,
    (non_forceexit_commands_no_effect
      (SystemState.mk Control.cont
        (EngineState.mk (Portfolio.mk 0 [sui_usd] [(sui_usd, Position.mk 1 12)]) []))
      sui_usd noStrategy (MarketData.mk []) [] [] false Command.CloseAllPositions []
      (by decide) (by decide)).1⟩
